import Mathlib

/-!
# Link-Finder crawl engine: a shallow embedding

This file embeds the crawl engine of the Link-Finder repository
(`WebsiteCrawler` in `crawler.js`, plus the thin HTTP handler in
`src/server.js`) as executable Lean definitions, and proves the frozen
claims about it.

URL strings are manipulated as `List Char` internally (with `String`
wrappers at the API boundary), so that every operation is a structural
recursion the kernel can evaluate.  The platform `URL` class used by the
source is modelled by `LinkFinder.parseUrl` / `LinkFinder.resolveUrl`,
restricted to the URL shapes the crawler manipulates.
-/

namespace LinkFinder

/-- ASCII fragment of JS whitespace: the characters that
`String.prototype.trim` and the regex class `\s` treat as whitespace in
the inputs modelled here. -/
def isWsChar (c : Char) : Bool :=
  c == ' ' || c == '\t' || c == '\n' || c == '\r' || c == '\x0B' || c == '\x0C'

/-- ASCII lowercasing of one character, as the URL parser applies to
schemes and hosts. -/
def lowerChar (c : Char) : Char :=
  if 'A' ≤ c ∧ c ≤ 'Z' then Char.ofNat (c.toNat + 32) else c

/-- Model of `String.prototype.trim` on the character list. -/
def trimList (l : List Char) : List Char :=
  ((l.dropWhile isWsChar).reverse.dropWhile isWsChar).reverse

/-- Model of `String.prototype.startsWith` on character lists:
`startsWithL p l` is true when `p` is an initial segment of `l`. -/
def startsWithL : List Char → List Char → Bool
  | [], _ => true
  | _ :: _, [] => false
  | p :: ps, c :: cs => p == c && startsWithL ps cs

/-- Model of `String.prototype.split` with a one-character separator. -/
def splitOnChar (sep : Char) : List Char → List (List Char)
  | [] => [[]]
  | c :: cs =>
    if c == sep then [] :: splitOnChar sep cs
    else
      match splitOnChar sep cs with
      | [] => [[c]]
      | p :: ps => (c :: p) :: ps

/-- Whether a character list ends in `'/'` (JS `endsWith('/')`). -/
def endsSlash (l : List Char) : Bool :=
  l.getLast? == some '/'

/-- The predicate `fun c => c ≠ a` as a Bool-valued function. -/
def notChar (a : Char) : Char → Bool := fun c => c != a

/-! ## The platform URL model -/

/-- A parsed URL object, the model of the platform's `URL` instances.
`scheme` is stored without the trailing colon; for non-special (opaque)
schemes such as `mailto:` the `host` is empty and `path` holds the
opaque content. -/
structure UrlObj where
  scheme : List Char
  host : List Char
  path : List Char
  query : Option (List Char)
  frag : Option (List Char)
deriving DecidableEq, Repr

/-- ASCII letter test. -/
def isAlphaCh (c : Char) : Bool :=
  if ('a' ≤ c ∧ c ≤ 'z') ∨ ('A' ≤ c ∧ c ≤ 'Z') then true else false

/-- ASCII digit test. -/
def isDigitCh (c : Char) : Bool :=
  if '0' ≤ c ∧ c ≤ '9' then true else false

/-- Characters allowed after the first character of a URL scheme. -/
def schemeCharOk (c : Char) : Bool :=
  isAlphaCh c || isDigitCh c || c == '+' || c == '-' || c == '.'

/-- A syntactically valid URL scheme: a letter followed by
letters/digits/`+`/`-`/`.`. -/
def schemeOk : List Char → Bool
  | [] => false
  | c :: cs => isAlphaCh c && cs.all schemeCharOk

/-- The special (hierarchical) schemes the crawler cares about. -/
def isSpecialL (s : List Char) : Bool :=
  s == "http".data || s == "https".data

/-- Characters that may appear in the host component. -/
def hostChar (c : Char) : Bool :=
  c != '/' && c != '?' && c != '#'

/-- Characters that may appear in the path component (stop at query or
fragment). -/
def pqChar (c : Char) : Bool :=
  c != '?' && c != '#'

/-- Model of the platform URL parser (`new URL(s)` with no base),
restricted to the URL shapes this repository manipulates: hierarchical
`http`/`https` URLs written `scheme://host…`, and opaque non-special
URLs (`mailto:…`, `javascript:…`).  Schemes and hosts are lowercased as
the platform does; ports, percent-encoding, dot-segment normalization
and input-whitespace stripping are not modelled.  `none` models the
constructor throwing. -/
def parseUrl (l : List Char) : Option UrlObj :=
  let schemeRaw := l.takeWhile (notChar ':')
  match l.dropWhile (notChar ':') with
  | [] => none
  | _ :: afterColon =>
    if schemeOk schemeRaw then
      let sch := schemeRaw.map lowerChar
      if isSpecialL sch then
        match afterColon with
        | '/' :: '/' :: auth =>
          let hostRaw := auth.takeWhile hostChar
          let rest2 := auth.dropWhile hostChar
          if hostRaw.isEmpty then none
          else
            let path0 := rest2.takeWhile pqChar
            let path := if path0.isEmpty then ['/'] else path0
            match rest2.dropWhile pqChar with
            | '?' :: r =>
              some ⟨sch, hostRaw.map lowerChar, path, some (r.takeWhile (notChar '#')),
                match r.dropWhile (notChar '#') with
                | [] => none
                | _ :: f => some f⟩
            | '#' :: f => some ⟨sch, hostRaw.map lowerChar, path, none, some f⟩
            | _ => some ⟨sch, hostRaw.map lowerChar, path, none, none⟩
        | _ => none
      else
        some ⟨sch, [], afterColon.takeWhile (notChar '#'), none,
          match afterColon.dropWhile (notChar '#') with
          | [] => none
          | _ :: f => some f⟩
    else none

/-- The serialized query component (`?…` or empty). -/
def queryPart : Option (List Char) → List Char
  | none => []
  | some q => '?' :: q

/-- The serialized fragment component (`#…` or empty). -/
def fragPart : Option (List Char) → List Char
  | none => []
  | some f => '#' :: f

/-- Model of the `href` getter: the serialization of a URL object. -/
def hrefOf (u : UrlObj) : List Char :=
  if isSpecialL u.scheme then
    u.scheme ++ "://".data ++ u.host ++ u.path ++ queryPart u.query ++ fragPart u.frag
  else
    u.scheme ++ ':' :: (u.path ++ fragPart u.frag)

/-- Model of the `origin` getter (`"null"` for opaque URLs, as in the
platform). -/
def originOf (u : UrlObj) : List Char :=
  if isSpecialL u.scheme then u.scheme ++ "://".data ++ u.host else "null".data

/-- The directory part of a path: everything up to and including the
last `'/'`. -/
def dirOf (path : List Char) : List Char :=
  (path.reverse.dropWhile (notChar '/')).reverse

/-- Model of `new URL(href, base)`: absolute inputs parse on their own;
otherwise standard relative resolution against a hierarchical base
(scheme-relative `//…`, absolute-path `/…`, query/fragment-only and
relative-path references).  Dot-segment normalization is not modelled;
resolution against an opaque base fails, as in the platform. -/
def resolveUrl (href : List Char) (base : UrlObj) : Option UrlObj :=
  match parseUrl href with
  | some u => some u
  | none =>
    if isSpecialL base.scheme then
      if startsWithL "//".data href then
        parseUrl (base.scheme ++ ':' :: href)
      else
        let beforeFrag := href.takeWhile (notChar '#')
        let frag : Option (List Char) :=
          match href.dropWhile (notChar '#') with
          | [] => none
          | _ :: f => some f
        let p := beforeFrag.takeWhile (notChar '?')
        let q : Option (List Char) :=
          match beforeFrag.dropWhile (notChar '?') with
          | [] => none
          | _ :: qs => some qs
        if startsWithL "/".data p then
          some { base with path := p, query := q, frag := frag }
        else if p.isEmpty then
          match q with
          | some _ => some { base with query := q, frag := frag }
          | none =>
            match frag with
            | some _ => some { base with frag := frag }
            | none => some { base with frag := none }
        else
          some { base with path := dirOf base.path ++ p, query := q, frag := frag }
    else none

/-! ## The crawler's URL helpers (`crawler.js`) -/

/-- The reject tests at the top of `normalizeLink` (`crawler.js:63-72`):
falsy/empty href, whitespace-only href, `javascript:`/`mailto:`/`tel:`/
`data:` pseudo-schemes, and fragment-only references. -/
def jsRejectHref (h : List Char) : Bool :=
  h.isEmpty || (trimList h).isEmpty ||
  startsWithL "javascript:".data h ||
  startsWithL "mailto:".data h ||
  startsWithL "tel:".data h ||
  startsWithL "data:".data h ||
  startsWithL "#".data h ||
  trimList h == ['#']

/-- The bare-origin URL object of a hierarchical base, the parse of the
string `base.origin` used by the manual-resolution fallback. -/
def bareOriginOf (base : UrlObj) : UrlObj :=
  ⟨base.scheme, base.host, ['/'], none, none⟩

/-- Model of `WebsiteCrawler.normalizeLink(href, baseUrl)`
(`crawler.js:60-106`): reject pseudo-links, resolve against the base
(with the manual fallback of the source's inner `catch`), clear the
fragment, and strip one trailing slash unless the result is the bare
origin.  `none` models the `null` returns of both `catch` blocks. -/
def normalizeLink (href baseUrl : String) : Option String :=
  let h := href.data
  if jsRejectHref h then none
  else
    match parseUrl baseUrl.data with
    | none => none
    | some base =>
      let r? :=
        match resolveUrl h base with
        | some r => some r
        | none =>
          if startsWithL "//".data h then parseUrl ("https:".data ++ h)
          else if startsWithL "/".data h then
            if isSpecialL base.scheme then resolveUrl h (bareOriginOf base) else none
          else resolveUrl h base
      match r? with
      | none => none
      | some r0 =>
        let r : UrlObj := { r0 with frag := none }
        let n := hrefOf r
        let n' := if endsSlash n && !(n == originOf r ++ ['/']) then n.dropLast else n
        some (String.mk n')

/-- Model of `WebsiteCrawler.normalizeUrl(url)` (`crawler.js:18-31`):
prepend `https://` when no scheme prefix is present, then strip one
trailing slash from the parsed `href` (falling back to the `href` when
the strip would leave nothing).  `none` models the thrown
`Invalid URL` error. -/
def normalizeUrl (url : String) : Option String :=
  let u0 := url.data
  let u :=
    if !(startsWithL "http://".data u0 || startsWithL "https://".data u0) then
      "https://".data ++ u0
    else u0
  match parseUrl u with
  | none => none
  | some p =>
    let h := hrefOf p
    let h' := if endsSlash h then h.dropLast else h
    some (String.mk (if h'.isEmpty then h else h'))

/-- Model of `WebsiteCrawler.getDomain(url)` (`crawler.js:33-40`). -/
def getDomain (url : String) : Option String :=
  (parseUrl url.data).map (fun p => String.mk p.host)

/-- Model of `WebsiteCrawler.isValidUrl(urlString)` (`crawler.js:42-49`):
parse, then require the `http:` or `https:` protocol; `false` (not an
exception) on unparseable input. -/
def isValidUrl (u : String) : Bool :=
  match parseUrl u.data with
  | some p => p.scheme == "http".data || p.scheme == "https".data
  | none => false

/-- Model of `WebsiteCrawler.isSameDomain(url)` (`crawler.js:51-58`),
with the crawler's `baseDomain` field passed explicitly: parse, then
require the hostname to equal the base domain exactly; `false` on
unparseable input. -/
def isSameDomain (baseDomain u : String) : Bool :=
  match parseUrl u.data with
  | some p => p.host == baseDomain.data
  | none => false

/-! ## Robots and sitemap extraction -/

/-- Case-insensitive `startsWithL`: the pattern is given lowercase. -/
def startsWithCI (p l : List Char) : Bool :=
  startsWithL p (l.map lowerChar)

/-- Model of `body.match(/Sitemap:\s*(.+)/gi)` (`crawler.js:115`): scan
for a case-insensitive `sitemap:`, take the whitespace run and then the
non-empty rest of the line as the match, and continue after it.  The
fuel is the length of the scanned text; regex backtracking of `\s*`
into `(.+)` at a line end is not modelled (such a corner match still
contains the directive's colon, which is all the proofs use). -/
def sitemapMatchAux : Nat → List Char → List (List Char)
  | 0, _ => []
  | _ + 1, [] => []
  | fuel + 1, l@(_ :: cs) =>
    if startsWithCI "sitemap:".data l then
      let dir := l.take 8
      let r1 := l.drop 8
      let w := r1.takeWhile isWsChar
      let r2 := r1.dropWhile isWsChar
      let content := r2.takeWhile (fun ch => ch != '\n' && ch != '\r')
      if content.isEmpty then sitemapMatchAux fuel cs
      else (dir ++ w ++ content) ::
        sitemapMatchAux fuel (r2.dropWhile (fun ch => ch != '\n' && ch != '\r'))
    else sitemapMatchAux fuel cs

/-- The loop body of `fetchRobotsTxt` over the regex matches
(`crawler.js:117-122`): take `match.split(':')[1].trim()` and push it
when it passes `isValidUrl` and `isSameDomain`.  A missing index 1
models the `TypeError` on `.trim()`, which the enclosing `catch` turns
into abandoning the rest of the loop. -/
def processSitemapLoop (d : String) : List (List Char) → List String → List String
  | [], acc => acc
  | m :: ms, acc =>
    match (splitOnChar ':' m).get? 1 with
    | none => acc
    | some t =>
      let u := String.mk (trimList t)
      processSitemapLoop d ms (if isValidUrl u && isSameDomain d u then acc ++ [u] else acc)

/-- The `sitemapLinks` list `fetchRobotsTxt` builds from a robots.txt
body (`crawler.js:114-123`), for base domain `d`. -/
def robotsSitemapLinks (d body : String) : List String :=
  processSitemapLoop d (sitemapMatchAux body.data.length body.data) []

/-- Helper for the lazy `(.*?)<\/loc>` part of the sitemap regex: find
the first case-insensitive `</loc>` with no newline before it, returning
the inner text, the closing tag as written, and the remainder. -/
def findCloseLoc : Nat → List Char → Option (List Char × List Char × List Char)
  | 0, _ => none
  | fuel + 1, l =>
    if startsWithCI "</loc>".data l then some ([], l.take 6, l.drop 6)
    else
      match l with
      | [] => none
      | c :: cs =>
        if c == '\n' || c == '\r' then none
        else
          match findCloseLoc fuel cs with
          | none => none
          | some (inner, close, rest) => some (c :: inner, close, rest)

/-- Model of `content.match(/<loc>(.*?)<\/loc>/gi)` (`crawler.js:135`):
each match is the full `<loc>…</loc>` text as written in the body. -/
def locMatchAux : Nat → List Char → List (List Char)
  | 0, _ => []
  | _ + 1, [] => []
  | fuel + 1, l@(_ :: cs) =>
    if startsWithCI "<loc>".data l then
      match findCloseLoc l.length (l.drop 5) with
      | some (inner, close, rest) => (l.take 5 ++ inner ++ close) :: locMatchAux fuel rest
      | none => locMatchAux fuel cs
    else locMatchAux fuel cs

/-- Model of `match.replace(/<\/?loc>/g, '')` (`crawler.js:138`): remove
every case-SENSITIVE `<loc>` or `</loc>` occurrence (the replace, unlike
the match, has no `i` flag). -/
def stripLocAux : Nat → List Char → List Char
  | 0, l => l
  | _ + 1, [] => []
  | fuel + 1, l@(c :: cs) =>
    if startsWithL "</loc>".data l then stripLocAux fuel (l.drop 6)
    else if startsWithL "<loc>".data l then stripLocAux fuel (l.drop 5)
    else c :: stripLocAux fuel cs

/-- The candidate URL strings `parseSitemap` derives from a sitemap
body: each regex match, tag-stripped and trimmed (`crawler.js:135-138`). -/
def locTokens (body : String) : List String :=
  (locMatchAux body.data.length body.data).map
    (fun m => String.mk (trimList (stripLocAux m.length m)))

/-! ## The crawl orchestrator -/

/-- The crawler's mutable sets: `visitedUrls` (VisitedSet) and
`allLinks` (ResultSet), in insertion order. -/
structure CrawlState where
  visitedUrls : List String
  allLinks : List String
deriving DecidableEq, Repr

/-- `Set.prototype.add`: append when not already present. -/
def insertStr (x : String) (l : List String) : List String :=
  if x ∈ l then l else l ++ [x]

/-- The external collaborators of one crawl, each modelled as the
outcome the source observes: `robotsResp` is the robots.txt fetch
(`none` = any axios failure), `robotsAllow` is the parsed policy's
`isAllowed(url, 'LinkFinderBot')`, `fetchSitemap` the sitemap fetch,
and `render` the whole render pipeline for one URL — `none` when
`page.goto` throws, otherwise the post-redirect `page.url()` and the
raw link list `page.evaluate` returns. -/
structure CrawlEnv where
  robotsResp : Option String
  robotsAllow : String → Bool
  fetchSitemap : String → Option String
  render : String → Option (String × List String)

/-- Model of `parseSitemap` (`crawler.js:129-147`) applied to the fetch
outcome of one sitemap URL: each extracted `<loc>` token passing
`isValidUrl` and `isSameDomain` is added to `allLinks` and nothing
else changes; a failed fetch changes nothing. -/
def parseSitemapStep (d : String) (resp : Option String) (s : CrawlState) : CrawlState :=
  match resp with
  | none => s
  | some body =>
    let links := (locTokens body).foldl
      (fun acc u => if isValidUrl u && isSameDomain d u then insertStr u acc else acc)
      s.allLinks
    { s with allLinks := links }

/-- The `new URL(normalizedLink)` protocol re-check of the link loop
(`crawler.js:364-367`); `false` also models the inner `catch`. -/
def protocolOkB (nl : String) : Bool :=
  match parseUrl nl.data with
  | some p => p.scheme == "http".data || p.scheme == "https".data
  | none => false

/-- The guard a processed link must pass before being added and
possibly recursed into (`crawler.js:362-367`): truthy, `isValidUrl`,
`isSameDomain`, and the protocol re-check. -/
def linkOk (d nl : String) : Bool :=
  !(nl == "") && isValidUrl nl && isSameDomain d nl && protocolOkB nl

/-- One iteration of the link loop (`crawler.js:358-380`):
re-normalize (falling back to the raw link, `|| link`), and if the
guard passes add to `allLinks` and recurse when `depth < maxDepth`. -/
def linkStep (d : String) (m : Int) (recFn : String → Nat → CrawlState → CrawlState)
    (nu2 : String) (depth : Nat) (st : CrawlState) (link : String) : CrawlState :=
  let nl := (normalizeLink link nu2).getD link
  if linkOk d nl then
    let st' : CrawlState := { st with allLinks := insertStr nl st.allLinks }
    if (depth : Int) < m then recFn nl (depth + 1) st' else st'
  else st

/-- The base URL the link loop resolves against after the redirect
check (`crawler.js:221-231`): the canonical post-redirect URL when it
normalizes and stays on-domain, the pre-redirect URL otherwise. -/
def redirectBase (b d nu finalUrl : String) : String :=
  if finalUrl ≠ nu then
    match normalizeLink finalUrl b with
    | some rn => if isSameDomain d rn then rn else nu
    | none => nu
  else nu

/-- The state update of the redirect check (`crawler.js:225-231`): an
accepted post-redirect URL is added to `allLinks`. -/
def redirectState (b d nu finalUrl : String) (s : CrawlState) : CrawlState :=
  if finalUrl ≠ nu then
    match normalizeLink finalUrl b with
    | some rn => if isSameDomain d rn then { s with allLinks := insertStr rn s.allLinks } else s
    | none => s
  else s

/-- The body of one `crawlPage(url, depth)` call (`crawler.js:149-391`)
with the crawler's fields `baseUrl` `b`, `baseDomain` `d`, `maxDepth`
`m` and robots policy passed explicitly, and the recursive call
abstracted as `recFn`.  The guards in source order: depth bound,
canonicalize + scope (`crawler.js:150-157`), visited-set dedup
(`:159-161`), robots (`:164-166`); then mark visited and found
(`:168-169`), render — failures caught and logged, leaving a leaf
(`:382-390`) — then the redirect check and the link loop. -/
def crawlPageGo (env : CrawlEnv) (b d : String) (m : Int) (robots : Option (String → Bool))
    (recFn : String → Nat → CrawlState → CrawlState)
    (url : String) (depth : Nat) (s : CrawlState) : CrawlState :=
  if (depth : Int) > m then s
  else
    match normalizeLink url b with
    | none => s
    | some nu =>
      if !(isValidUrl nu && isSameDomain d nu) then s
      else if nu ∈ s.visitedUrls then s
      else if (match robots with | some allow => !allow nu | none => false) then s
      else
        let s1 : CrawlState := ⟨insertStr nu s.visitedUrls, insertStr nu s.allLinks⟩
        match env.render nu with
        | none => s1
        | some (finalUrl, links) =>
          links.foldl
            (linkStep d m recFn (redirectBase b d nu finalUrl) depth)
            (redirectState b d nu finalUrl s1)

/-- `crawlPage` as a fuel-indexed recursion.  The fuel only bounds the
recursion depth: since every recursive call increments `depth`, the
depth guard `depth > maxDepth` fires before the fuel can run out
whenever the initial fuel exceeds `maxDepth`, so `crawl`'s choice of
fuel makes the zero-fuel clause unreachable. -/
def crawlPage (env : CrawlEnv) (b d : String) (m : Int) (robots : Option (String → Bool)) :
    Nat → String → Nat → CrawlState → CrawlState
  | 0 => fun _ _ s => s
  | fuel + 1 => crawlPageGo env b d m robots (crawlPage env b d m robots fuel)

/-- The outcome of `fetchRobotsTxt()` (`crawler.js:108-127`): the robots
policy handle (absent when the fetch failed) and the extracted
`sitemapLinks`. -/
def robotsPhase (env : CrawlEnv) (d : String) : Option (String → Bool) × List String :=
  match env.robotsResp with
  | none => (none, [])
  | some body => (some env.robotsAllow, robotsSitemapLinks d body)

/-- The sitemap-ingestion loop of `crawl()` (`crawler.js:400-402`),
starting from the crawler's freshly-initialized empty sets. -/
def sitemapPhase (env : CrawlEnv) (d : String) (sms : List String) : CrawlState :=
  sms.foldl (fun st su => parseSitemapStep d (env.fetchSitemap su) st) ⟨[], []⟩

/-- Model of `crawl()` (`crawler.js:393-415`) up to the final sort: the
constructor (`normalizeUrl` + `getDomain`, whose failure aborts with an
error, modelled `none`), `fetchRobotsTxt`, the sitemap loop, and the
seed `crawlPage(this.baseUrl, 0)`. -/
def crawlFull (env : CrawlEnv) (inputUrl : String) (m : Int) : Option CrawlState :=
  match normalizeUrl inputUrl with
  | none => none
  | some b =>
    match getDomain b with
    | none => none
    | some d =>
      some (crawlPage env b d m (robotsPhase env d).1 (m.toNat + 1) b 0
        (sitemapPhase env d (robotsPhase env d).2))

/-- Ordered insertion for the final lexicographic sort. -/
def insSorted (x : String) : List String → List String
  | [] => [x]
  | y :: ys => if x < y then x :: y :: ys else y :: insSorted x ys

/-- Model of `Array.from(set).sort()` (`crawler.js:414`). -/
def sortStrs (l : List String) : List String :=
  l.foldr insSorted []

/-- The full `crawl()` return value: the sorted `allLinks`, or `none`
when the constructor throws. -/
def crawl (env : CrawlEnv) (u : String) (m : Int) : Option (List String) :=
  (crawlFull env u m).map (fun st => sortStrs st.allLinks)

/-- Model of `crawlWebsite(url)` (`crawler.js:418-421`): a crawler on
`url` with `maxDepth` 2. -/
def crawlWebsite (env : CrawlEnv) (url : String) : Option (List String) :=
  crawl env url 2

/-- JS `url.trim()` at the String level. -/
def jsTrim (s : String) : String :=
  String.mk (trimList s.data)

/-- Model of the `POST /api/crawl` handler (`src/server.js:11-41`):
`none` stands for a missing or non-string `url` field; an
empty-after-trim `url` is the 400 error, a crawler-constructor throw
the 500 error, and otherwise the sorted link list is returned. -/
def handleCrawl (env : CrawlEnv) (urlField : Option String) : Except String (List String) :=
  match urlField with
  | none => Except.error "URL is required and must be a non-empty string"
  | some url =>
    if jsTrim url == "" then Except.error "URL is required and must be a non-empty string"
    else
      match crawlWebsite env (jsTrim url) with
      | some links => Except.ok links
      | none => Except.error "Failed to crawl website"

/-! ## Canonical reachability (for the depth bound) -/

/-- The canonical key under which `crawlPage(u, _)` would record `u` in
the visited set: `normalizeLink(u, baseUrl)` when it passes the scope
guard (`crawler.js:154-157`). -/
def visitKeyOf (b d u : String) : Option String :=
  match normalizeLink u b with
  | some nu => if isValidUrl nu && isSameDomain d nu then some nu else none
  | none => none

/-- The links the page at canonical URL `c` dispatches: the rendered
raw links, re-normalized against the post-redirect base, filtered by
the link-loop guard. -/
def pageSuccs (env : CrawlEnv) (b d c : String) : List String :=
  match env.render c with
  | none => []
  | some (finalUrl, links) =>
    let nu2 := redirectBase b d c finalUrl
    links.filterMap (fun link =>
      let nl := (normalizeLink link nu2).getD link
      if linkOk d nl then some nl else none)

/-- `Reach env b d n c`: the canonical URL `c` is the visit key of some
URL reachable from the seed in `n` link steps of the rendered link
graph. -/
inductive Reach (env : CrawlEnv) (b d : String) : Nat → String → Prop where
  | seed : ∀ c, visitKeyOf b d b = some c → Reach env b d 0 c
  | step : ∀ n c l c', Reach env b d n c → l ∈ pageSuccs env b d c →
      visitKeyOf b d l = some c' → Reach env b d (n + 1) c'

/-- A fully-failing environment: the robots fetch, every sitemap fetch
and every render fail. -/
def envR : CrawlEnv := ⟨none, fun _ => true, fun _ => none, fun _ => none⟩

example : robotsSitemapLinks "ex.com" "User-agent: *\nSitemap: https://ex.com/sitemap.xml\n" = [] := by decide
example : sitemapMatchAux 46 "User-agent: *\nSitemap: https://ex.com/map.xml\n".data =
    ["Sitemap: https://ex.com/map.xml".data] := by decide
example : locTokens "<urlset><loc> https://ex.com/a </loc><loc>bad</loc></urlset>" =
    ["https://ex.com/a", "bad"] := by decide
example :
    parseSitemapStep "ex.com" (some "<loc>https://ex.com/a</loc><loc>https://other.com/b</loc>")
      ⟨[], []⟩ = ⟨[], ["https://ex.com/a"]⟩ := by decide
example :
    crawlFull ⟨none, fun _ => true, fun _ => none, fun _ => none⟩ "https://ex.com" 2 =
      some ⟨["https://ex.com/"], ["https://ex.com/"]⟩ := by decide
example :
    crawlFull ⟨none, fun _ => true, fun _ => none,
        fun u => if u == "https://ex.com/" then some (u, ["/a", "#top", "https://other.com/x"]) else none⟩
      "https://ex.com" 1 =
      some ⟨["https://ex.com/", "https://ex.com/a"], ["https://ex.com/", "https://ex.com/a"]⟩ := by decide
example :
    crawlFull ⟨none, fun _ => true, fun _ => none,
        fun u => if u == "https://ex.com/" then some (u, ["/a"]) else none⟩
      "https://ex.com" 0 =
      some ⟨["https://ex.com/"], ["https://ex.com/", "https://ex.com/a"]⟩ := by decide
example : normalizeUrl "https://ex.com" = some "https://ex.com" := by decide
example : normalizeUrl "https://ex.com/" = some "https://ex.com" := by decide
example : normalizeUrl "ex.com/a/" = some "https://ex.com/a" := by decide
example : normalizeLink "https://ex.com/a/" "https://ex.com" = some "https://ex.com/a" := by decide
example : normalizeLink "https://ex.com/a#frag" "https://ex.com" = some "https://ex.com/a" := by decide
example : normalizeLink "https://ex.com/" "https://ex.com" = some "https://ex.com/" := by decide
example : normalizeLink "/b" "https://ex.com/a" = some "https://ex.com/b" := by decide
example : normalizeLink "#x" "https://ex.com/a" = none := by decide
example : isValidUrl "mailto:a@b.com" = false := by decide
example : isValidUrl "https" = false := by decide
example : isSameDomain "ex.com" "https://sub.ex.com/x" = false := by decide
example : getDomain "https://ex.com" = some "ex.com" := by decide

/-! ## Helper lemmas -/

lemma mem_insertStr {x y : String} {l : List String} :
    x ∈ insertStr y l ↔ x = y ∨ x ∈ l := by
  unfold insertStr
  split
  · rename_i hy
    constructor
    · exact Or.inr
    · rintro (rfl | hx)
      · exact hy
      · exact hx
  · simp [List.mem_append, or_comm]

lemma mem_insertStr_self (y : String) (l : List String) : y ∈ insertStr y l :=
  mem_insertStr.mpr (Or.inl rfl)

lemma mem_insertStr_of_mem {x : String} (y : String) {l : List String} (h : x ∈ l) :
    x ∈ insertStr y l :=
  mem_insertStr.mpr (Or.inr h)

lemma not_mem_splitOnChar (sep : Char) :
    ∀ l : List Char, ∀ p ∈ splitOnChar sep l, sep ∉ p := by
  intro l
  induction l with
  | nil =>
    intro p hp
    simp only [splitOnChar, List.mem_singleton] at hp
    subst hp
    simp
  | cons c cs ih =>
    intro p hp
    simp only [splitOnChar] at hp
    by_cases hc : c == sep
    · rw [if_pos hc] at hp
      rcases List.mem_cons.mp hp with rfl | hp
      · simp
      · exact ih p hp
    · rw [if_neg hc] at hp
      have hcne : c ≠ sep := by simpa using hc
      cases hsp : splitOnChar sep cs with
      | nil =>
        rw [hsp] at hp
        rcases List.mem_singleton.mp hp with rfl
        simpa using hcne.symm
      | cons q qs =>
        rw [hsp] at hp
        rcases List.mem_cons.mp hp with rfl | hp
        · have hq : sep ∉ q := ih q (hsp ▸ List.mem_cons_self q qs)
          intro hmem
          rcases List.mem_cons.mp hmem with h | h
          · exact hcne h.symm
          · exact hq h
        · exact ih p (hsp ▸ List.mem_cons.mpr (Or.inr hp))

lemma mem_of_mem_trimList {c : Char} {l : List Char} (h : c ∈ trimList l) : c ∈ l := by
  unfold trimList at h
  rw [List.mem_reverse] at h
  have h1 := (List.dropWhile_sublist (l := (l.dropWhile isWsChar).reverse) (p := isWsChar)).mem h
  rw [List.mem_reverse] at h1
  exact (List.dropWhile_sublist (l := l) (p := isWsChar)).mem h1

lemma parseUrl_eq_none_of_no_colon {l : List Char} (h : ':' ∉ l) : parseUrl l = none := by
  have hd : l.dropWhile (notChar ':') = [] := by
    apply List.dropWhile_eq_nil_iff.mpr
    intro a ha
    have hne : a ≠ ':' := fun e => h (e ▸ ha)
    simp [notChar, hne]
  simp [parseUrl, hd]

lemma isValidUrl_mk_false_of_no_colon {t : List Char} (h : ':' ∉ t) :
    isValidUrl (String.mk t) = false := by
  simp [isValidUrl, parseUrl_eq_none_of_no_colon h]

lemma processSitemapLoop_eq_acc (d : String) :
    ∀ (ms : List (List Char)) (acc : List String), processSitemapLoop d ms acc = acc := by
  intro ms
  induction ms with
  | nil => intro acc; rfl
  | cons m ms ih =>
    intro acc
    simp only [processSitemapLoop]
    cases hg : (splitOnChar ':' m).get? 1 with
    | none => rfl
    | some t =>
      have ht : ':' ∉ t := not_mem_splitOnChar ':' m t (List.get?_mem hg)
      have hv : isValidUrl (String.mk (trimList t)) = false :=
        isValidUrl_mk_false_of_no_colon (fun hc => ht (mem_of_mem_trimList hc))
      simp only [hv, Bool.false_and, if_neg (by simp : ¬False)]
      exact ih acc

/-- Because `match.split(':')[1]` can never contain a colon, no token
ever passes `isValidUrl`, so `fetchRobotsTxt` leaves `sitemapLinks`
empty on every robots.txt body. -/
lemma robotsSitemapLinks_always_empty (d body : String) :
    robotsSitemapLinks d body = [] :=
  processSitemapLoop_eq_acc d _ []

lemma trimList_eq_nil_of_all_ws {l : List Char} (h : ∀ c ∈ l, isWsChar c = true) :
    trimList l = [] := by
  have h1 : l.dropWhile isWsChar = [] := List.dropWhile_eq_nil_iff.mpr h
  simp [trimList, h1]

/-! ## Claim theorems: robots/sitemap extraction (C1) -/

/-- C1: the claim says `fetchRobotsTxt` keeps the URL following the
colon of a `Sitemap:` line when it is a valid same-domain URL.  The
code instead takes `match.split(':')[1]`, the text strictly between the
first and second colons of the match — for `Sitemap:
https://ex.com/sitemap.xml` that is `" https"`, whose trim `"https"`
fails `isValidUrl`, so the valid same-domain sitemap URL is dropped and
`sitemapLinks` stays empty. -/
theorem fetchRobotsTxt_sitemap_bug :
    sitemapMatchAux 35 "Sitemap: https://ex.com/sitemap.xml".data =
      ["Sitemap: https://ex.com/sitemap.xml".data] ∧
    (splitOnChar ':' "Sitemap: https://ex.com/sitemap.xml".data).get? 1 = some " https".data ∧
    isValidUrl "https" = false ∧
    isSameDomain "ex.com" "https://ex.com/sitemap.xml" = true ∧
    isValidUrl "https://ex.com/sitemap.xml" = true ∧
    robotsSitemapLinks "ex.com" "Sitemap: https://ex.com/sitemap.xml" = [] := by
  decide

/-! ## Claim theorems: canonicalizer rejections (C4) -/

/-- C4: `normalizeLink` returns `null` (not an exception) on every href
that is empty or whitespace-only, or begins with `javascript:`,
`mailto:`, `tel:`, `data:`, or `#`. -/
theorem normalizeLink_rejects (href b : String)
    (h : href.data = [] ∨ (∀ c ∈ href.data, isWsChar c = true) ∨
      startsWithL "javascript:".data href.data = true ∨
      startsWithL "mailto:".data href.data = true ∨
      startsWithL "tel:".data href.data = true ∨
      startsWithL "data:".data href.data = true ∨
      startsWithL "#".data href.data = true) :
    normalizeLink href b = none := by
  have hrej : jsRejectHref href.data = true := by
    rcases h with h | h | h | h | h | h | h
    · simp [jsRejectHref, h]
    · simp [jsRejectHref, trimList_eq_nil_of_all_ws h]
    · simp [jsRejectHref, h]
    · simp [jsRejectHref, h]
    · simp [jsRejectHref, h]
    · simp [jsRejectHref, h]
    · simp [jsRejectHref, h]
  simp [normalizeLink, hrej]

/-- Witness for C4 at the claim's four concrete inputs. -/
theorem normalizeLink_rejects_witness :
    normalizeLink "javascript:void(0)" "https://ex.com" = none ∧
    normalizeLink "mailto:a@b.com" "https://ex.com" = none ∧
    normalizeLink "#section" "https://ex.com" = none ∧
    normalizeLink "" "https://ex.com" = none :=
  ⟨normalizeLink_rejects _ _ (Or.inr (Or.inr (Or.inl (by decide)))),
   normalizeLink_rejects _ _ (Or.inr (Or.inr (Or.inr (Or.inl (by decide))))),
   normalizeLink_rejects _ _ (Or.inr (Or.inr (Or.inr (Or.inr (Or.inr (Or.inr (by decide))))))),
   normalizeLink_rejects _ _ (Or.inl (by decide))⟩

/-! ## Claim theorems: canonicalization equivalence (C5) -/

/-- C5: with any base URL the platform can parse, the three forms
differing only by a trailing slash or a fragment canonicalize to the
same value: the fragment is stripped and the trailing slash removed
because the result is not a bare origin. -/
theorem canonicalize_equivalence (b : String) (hb : (parseUrl b.data).isSome = true) :
    normalizeLink "https://ex.com/a/" b = some "https://ex.com/a" ∧
    normalizeLink "https://ex.com/a#frag" b = some "https://ex.com/a" ∧
    normalizeLink "https://ex.com/a" b = some "https://ex.com/a" := by
  obtain ⟨p, hp⟩ := Option.isSome_iff_exists.mp hb
  refine ⟨?_, ?_, ?_⟩ <;> (simp only [normalizeLink, hp]; rfl)

/-- Witness for C5 at the base `https://ex.com`. -/
theorem canonicalize_equivalence_witness :
    normalizeLink "https://ex.com/a/" "https://ex.com" = some "https://ex.com/a" ∧
    normalizeLink "https://ex.com/a#frag" "https://ex.com" = some "https://ex.com/a" ∧
    normalizeLink "https://ex.com/a" "https://ex.com" = some "https://ex.com/a" :=
  canonicalize_equivalence "https://ex.com" (by decide)

/-! ## Claim theorems: the scope filter (C6) -/

/-- C6: the scope check `isValidUrl(u) && isSameDomain(u)` holds iff
`u` parses with scheme `http`/`https` and hostname exactly equal to the
base domain (no subdomain matching); both functions are total and
return `false` on unparseable input; `https://sub.ex.com/x` is out of
scope for base domain `ex.com`. -/
theorem scope_exact_host (d u : String) :
    ((isValidUrl u && isSameDomain d u) = true ↔
      ∃ p, parseUrl u.data = some p ∧
        (p.scheme = "http".data ∨ p.scheme = "https".data) ∧ p.host = d.data) ∧
    (parseUrl u.data = none → isValidUrl u = false ∧ isSameDomain d u = false) ∧
    isSameDomain "ex.com" "https://sub.ex.com/x" = false := by
  refine ⟨?_, ?_, by decide⟩
  · cases hp : parseUrl u.data with
    | none => simp [isValidUrl, isSameDomain, hp]
    | some p => simp [isValidUrl, isSameDomain, hp]
  · intro hp
    simp [isValidUrl, isSameDomain, hp]

/-- Witness for C6: both scope functions return `false` on an
unparseable input. -/
theorem scope_exact_host_witness :
    isValidUrl "notaurl" = false ∧ isSameDomain "ex.com" "notaurl" = false :=
  (scope_exact_host "ex.com" "notaurl").2.1 (by decide)

/-! ## Claim theorems: the API always crawls at depth 2 (C10) -/

/-- C10: the HTTP handler passes only the trimmed `url` string to
`crawlWebsite`, which always constructs the crawler with `maxDepth = 2`,
so every API-initiated crawl runs `crawl` at depth exactly 2. -/
theorem api_depth_fixed (env : CrawlEnv) (url : String)
    (h : (jsTrim url == "") = false) :
    handleCrawl env (some url) =
      (match crawl env (jsTrim url) 2 with
        | some links => Except.ok links
        | none => Except.error "Failed to crawl website") ∧
    crawlWebsite env (jsTrim url) = crawl env (jsTrim url) 2 := by
  constructor
  · simp [handleCrawl, h, crawlWebsite]
  · rfl

/-- Witness for C10 on a concrete request. -/
theorem api_depth_fixed_witness :
    handleCrawl envR (some "https://ex.com") =
      (match crawl envR (jsTrim "https://ex.com") 2 with
        | some links => Except.ok links
        | none => Except.error "Failed to crawl website") :=
  (api_depth_fixed envR "https://ex.com" (by decide)).1

/-! ## Claim theorems: sitemap ingestion frame effect (C7) -/

lemma mem_foldl_insertFilter (p : String → Bool) :
    ∀ (ls acc : List String) (x : String),
      x ∈ ls.foldl (fun acc u => if p u then insertStr u acc else acc) acc ↔
        x ∈ acc ∨ (x ∈ ls ∧ p x = true) := by
  intro ls
  induction ls with
  | nil => intro acc x; simp
  | cons u us ih =>
    intro acc x
    rw [List.foldl_cons, ih]
    by_cases hpu : p u = true
    · rw [if_pos hpu]
      constructor
      · rintro (hx | hx)
        · rcases mem_insertStr.mp hx with rfl | hx
          · exact Or.inr ⟨List.mem_cons_self _ _, hpu⟩
          · exact Or.inl hx
        · exact Or.inr ⟨List.mem_cons.mpr (Or.inr hx.1), hx.2⟩
      · rintro (hx | ⟨hmem, hpx⟩)
        · exact Or.inl (mem_insertStr_of_mem u hx)
        · rcases List.mem_cons.mp hmem with rfl | hx
          · exact Or.inl (mem_insertStr_self x acc)
          · exact Or.inr ⟨hx, hpx⟩
    · rw [if_neg hpu]
      constructor
      · rintro (hx | hx)
        · exact Or.inl hx
        · exact Or.inr ⟨List.mem_cons.mpr (Or.inr hx.1), hx.2⟩
      · rintro (hx | ⟨hmem, hpx⟩)
        · exact Or.inl hx
        · rcases List.mem_cons.mp hmem with rfl | hx
          · exact absurd hpx hpu
          · exact Or.inr ⟨hx, hpx⟩

lemma parseSitemapStep_visitedUrls (d : String) (resp : Option String) (s : CrawlState) :
    (parseSitemapStep d resp s).visitedUrls = s.visitedUrls := by
  cases resp <;> rfl

lemma sitemapPhase_visitedUrls (env : CrawlEnv) (d : String) (sms : List String) :
    (sitemapPhase env d sms).visitedUrls = [] := by
  suffices h : ∀ (ls : List String) (st : CrawlState),
      (ls.foldl (fun st su => parseSitemapStep d (env.fetchSitemap su) st) st).visitedUrls =
        st.visitedUrls by
    exact h sms ⟨[], []⟩
  intro ls
  induction ls with
  | nil => intro st; rfl
  | cons a as ih => intro st; rw [List.foldl_cons, ih, parseSitemapStep_visitedUrls]

/-- C7: sitemap ingestion touches only the result set: `parseSitemap`
leaves `visitedUrls` unchanged, and its `allLinks` output is exactly
the input plus the valid same-domain `<loc>` tokens.  The modelled step
takes no robots policy and no renderer and performs no recursion, so
sitemap-discovered URLs are never robots-checked, rendered, or
recursed into. -/
theorem parseSitemap_frame (d : String) (resp : Option String) (s : CrawlState) :
    (parseSitemapStep d resp s).visitedUrls = s.visitedUrls ∧
    ∀ x, x ∈ (parseSitemapStep d resp s).allLinks ↔
      x ∈ s.allLinks ∨ ∃ body, resp = some body ∧ x ∈ locTokens body ∧
        isValidUrl x = true ∧ isSameDomain d x = true := by
  refine ⟨parseSitemapStep_visitedUrls d resp s, ?_⟩
  intro x
  cases resp with
  | none => simp [parseSitemapStep]
  | some body =>
    show x ∈ (locTokens body).foldl
        (fun acc u => if isValidUrl u && isSameDomain d u then insertStr u acc else acc)
        s.allLinks ↔ _
    rw [mem_foldl_insertFilter (fun u => isValidUrl u && isSameDomain d u)]
    simp [Bool.and_eq_true, and_assoc]

/-! ## Claim theorems: bare-origin canonicalizer disagreement (C8) -/

lemma trimList_cons_of_not_ws (c : Char) (l : List Char) (hc : isWsChar c = false) :
    ∃ t, trimList (c :: l) = c :: t := by
  unfold trimList
  rw [List.dropWhile_cons, if_neg (by simp [hc]), List.reverse_cons, List.dropWhile_append]
  by_cases he : (l.reverse.dropWhile isWsChar).isEmpty = true
  · rw [if_pos he, List.dropWhile_cons, if_neg (by simp [hc])]
    exact ⟨[], by simp⟩
  · rw [if_neg he]
    exact ⟨(l.reverse.dropWhile isWsChar).reverse, by simp⟩

lemma jsRejectHref_httpLike (t : List Char) :
    jsRejectHref ('h' :: 't' :: 't' :: 'p' :: t) = false := by
  obtain ⟨r, hr⟩ := trimList_cons_of_not_ws 'h' ('t' :: 't' :: 'p' :: t) (by decide)
  simp only [jsRejectHref, hr]
  rfl

/-- C8: on a bare-origin URL the two canonicalizers disagree —
`normalizeUrl` (applied to the seed in the constructor) strips the
trailing slash while `normalizeLink` (through which `crawlPage`
re-derives the seed's visited-set key) keeps it, so the stored
`baseUrl` differs from the canonical form recorded in VisitedSet and
ResultSet. -/
theorem bare_origin_disagreement (s : String) (u : UrlObj)
    (h1 : startsWithL "http://".data s.data = true ∨
      startsWithL "https://".data s.data = true)
    (h2 : parseUrl s.data = some u)
    (hsch : u.scheme = "http".data ∨ u.scheme = "https".data)
    (hpath : u.path = ['/']) (hq : u.query = none) (hf : u.frag = none)
    (hrt : parseUrl (originOf u) = some u) :
    normalizeUrl s = some (String.mk (originOf u)) ∧
    normalizeLink (String.mk (originOf u)) (String.mk (originOf u)) =
      some (String.mk (originOf u ++ ['/'])) ∧
    String.mk (originOf u) ≠ String.mk (originOf u ++ ['/']) := by
  obtain ⟨sch, host, path, q, f⟩ := u
  simp only at hsch hpath hq hf
  subst hpath hq hf
  have hspec : isSpecialL sch = true := by
    rcases hsch with rfl | rfl <;> decide
  have horig : originOf ⟨sch, host, ['/'], none, none⟩ = sch ++ "://".data ++ host := by
    simp [originOf, hspec]
  have hhref : hrefOf ⟨sch, host, ['/'], none, none⟩ =
      (sch ++ "://".data ++ host) ++ ['/'] := by
    simp [hrefOf, hspec, queryPart, fragPart]
  have hne : (sch ++ "://".data ++ host).isEmpty = false := by
    rcases hsch with rfl | rfl <;> rfl
  have hreject : jsRejectHref (sch ++ "://".data ++ host) = false := by
    rcases hsch with rfl | rfl <;> exact jsRejectHref_httpLike _
  refine ⟨?_, ?_, ?_⟩
  · -- normalizeUrl strips the slash of the parsed href
    have hpre : (!(startsWithL "http://".data s.data ||
        startsWithL "https://".data s.data)) = false := by
      rcases h1 with hp | hp <;> simp [hp]
    simp only [normalizeUrl, hpre, Bool.false_eq_true, if_false, h2, hhref, horig]
    rw [endsSlash, List.getLast?_concat]
    simp only [beq_self_eq_true, if_true, List.dropLast_concat, hne,
      Bool.false_eq_true, if_false]
  · -- normalizeLink keeps the slash because the result is the bare origin
    rw [horig]
    rw [horig] at hrt
    simp only [normalizeLink, hreject, Bool.false_eq_true, if_false, hrt,
      resolveUrl, hhref, horig]
    rw [endsSlash, List.getLast?_concat]
    simp [horig]
  · intro h
    have hdata := congrArg String.data h
    simp only at hdata
    have : (['/'] : List Char) = [] := List.self_eq_append_right.mp hdata
    simp at this

/-! ## Result-set monotonicity of the traversal -/

lemma redirectState_visitedUrls (b d nu f : String) (s : CrawlState) :
    (redirectState b d nu f s).visitedUrls = s.visitedUrls := by
  unfold redirectState
  split
  · cases h : normalizeLink f b with
    | none => rfl
    | some rn =>
      dsimp only
      split <;> rfl
  · rfl

lemma redirectState_allLinks_mem (b d nu f : String) (s : CrawlState) {x : String}
    (hx : x ∈ s.allLinks) : x ∈ (redirectState b d nu f s).allLinks := by
  unfold redirectState
  split
  · cases h : normalizeLink f b with
    | none => exact hx
    | some rn =>
      dsimp only
      split
      · exact mem_insertStr_of_mem _ hx
      · exact hx
  · exact hx

lemma foldl_linkStep_allLinks_mono (d : String) (m : Int)
    (recFn : String → Nat → CrawlState → CrawlState)
    (hrec : ∀ url dep st x, x ∈ st.allLinks → x ∈ (recFn url dep st).allLinks)
    (nu2 : String) (depth : Nat) :
    ∀ (ls : List String) (st : CrawlState) (x : String), x ∈ st.allLinks →
      x ∈ (ls.foldl (linkStep d m recFn nu2 depth) st).allLinks := by
  intro ls
  induction ls with
  | nil => intro st x hx; exact hx
  | cons l ls ih =>
    intro st x hx
    rw [List.foldl_cons]
    apply ih
    unfold linkStep
    dsimp only
    split
    · split
      · exact hrec _ _ _ _ (mem_insertStr_of_mem _ hx)
      · exact mem_insertStr_of_mem _ hx
    · exact hx

lemma crawlPage_allLinks_mono (env : CrawlEnv) (b d : String) (m : Int)
    (r : Option (String → Bool)) :
    ∀ (fuel : Nat) (url : String) (depth : Nat) (s : CrawlState) (x : String),
      x ∈ s.allLinks → x ∈ (crawlPage env b d m r fuel url depth s).allLinks := by
  intro fuel
  induction fuel with
  | zero => intro url depth s x hx; exact hx
  | succ fuel ih =>
    intro url depth s x hx
    simp only [crawlPage]
    unfold crawlPageGo
    split
    · exact hx
    · cases hnl : normalizeLink url b with
      | none => exact hx
      | some nu =>
        dsimp only
        split
        · exact hx
        · split
          · exact hx
          · split
            · exact hx
            · cases hr : env.render nu with
              | none => exact mem_insertStr_of_mem _ hx
              | some p =>
                dsimp only
                exact foldl_linkStep_allLinks_mono d m _ ih _ depth p.2 _ x
                  (redirectState_allLinks_mem b d nu p.1 _
                    (mem_insertStr_of_mem _ hx))

lemma mem_insSorted {x y : String} {l : List String} :
    x ∈ insSorted y l ↔ x = y ∨ x ∈ l := by
  induction l with
  | nil => simp [insSorted]
  | cons a as ih =>
    simp only [insSorted]
    split
    · simp
    · rw [List.mem_cons, ih, List.mem_cons]
      tauto

lemma mem_sortStrs {x : String} {l : List String} : x ∈ sortStrs l ↔ x ∈ l := by
  unfold sortStrs
  induction l with
  | nil => simp
  | cons a as ih =>
    rw [List.foldr_cons, mem_insSorted, ih, List.mem_cons]

/-! ## Claim theorems: render-failure resilience (C3) -/

/-- C3: if the seed canonicalizes, scopes, `maxDepth ≥ 0` and robots
does not disallow it, then for EVERY environment — in particular one in
which every fetch and render fails — `crawl()` returns a link list
(no error propagates) containing at least the seed's canonical URL,
which is added to the result set before rendering is attempted. -/
theorem crawl_render_resilient (env : CrawlEnv) (u b d c : String) (m : Int)
    (hb : normalizeUrl u = some b) (hd : getDomain b = some d)
    (hc : normalizeLink b b = some c)
    (hval : isValidUrl c = true) (hsame : isSameDomain d c = true)
    (hm : 0 ≤ m)
    (hrob : env.robotsResp = none ∨ env.robotsAllow c = true) :
    ∃ links, crawl env u m = some links ∧ c ∈ links := by
  refine ⟨_, by simp only [crawl, crawlFull, hb, hd]; rfl, ?_⟩
  rw [mem_sortStrs]
  have hfuel : m.toNat + 1 = Nat.succ m.toNat := rfl
  simp only [crawlPage]
  unfold crawlPageGo
  have hg : ¬ (((0 : Nat) : Int) > m) := by push_cast; omega
  rw [if_neg hg, hc]
  dsimp only
  have hvs : (!(isValidUrl c && isSameDomain d c)) = true ↔ False := by
    simp [hval, hsame]
  rw [if_neg (by simp [hval, hsame])]
  have hnv : ¬ c ∈ (sitemapPhase env d (robotsPhase env d).2).visitedUrls := by
    rw [sitemapPhase_visitedUrls]
    simp
  rw [if_neg hnv]
  have hrguard : (match (robotsPhase env d).1 with
      | some allow => !allow c
      | none => false) = false := by
    cases henv : env.robotsResp with
    | none => simp [robotsPhase, henv]
    | some body =>
      rcases hrob with hrn | hra
      · rw [henv] at hrn; exact absurd hrn (by simp)
      · simp [robotsPhase, henv, hra]
  rw [if_neg (by simp [hrguard])]
  cases hr : env.render c with
  | none => exact mem_insertStr_self c _
  | some p =>
    dsimp only
    exact foldl_linkStep_allLinks_mono d m _ (crawlPage_allLinks_mono env b d m _ _) _ 0 p.2 _ c
      (redirectState_allLinks_mem b d c p.1 _ (mem_insertStr_self c _))

/-- Witness for C3: the fully-failing environment still yields the
seed. -/
theorem crawl_render_resilient_witness :
    ∃ links, crawl envR "https://ex.com" 0 = some links ∧ "https://ex.com/" ∈ links :=
  crawl_render_resilient envR "https://ex.com" "https://ex.com" "ex.com" "https://ex.com/" 0
    (by decide) (by decide) (by decide) (by decide) (by decide) (by omega)
    (Or.inl rfl)

/-! ## Claim theorems: negative maxDepth visits nothing (C9) -/

/-- C9: with `maxDepth < 0` the seed `crawlPage` call returns
immediately (`0 > maxDepth`), so the crawl raises no error, visits no
page, returns exactly the sitemap-ingestion state (which here is empty,
since `fetchRobotsTxt` never retains a sitemap URL), and the seed URL
is absent from the returned list. -/
theorem crawl_negative_depth (env : CrawlEnv) (u b d : String) (m : Int)
    (hb : normalizeUrl u = some b) (hd : getDomain b = some d) (hm : m < 0) :
    crawlFull env u m = some (sitemapPhase env d (robotsPhase env d).2) ∧
    (sitemapPhase env d (robotsPhase env d).2).visitedUrls = [] ∧
    b ∉ (sitemapPhase env d (robotsPhase env d).2).allLinks ∧
    crawl env u m = some (sortStrs (sitemapPhase env d (robotsPhase env d).2).allLinks) := by
  have hsm : (robotsPhase env d).2 = [] := by
    cases henv : env.robotsResp with
    | none => simp [robotsPhase, henv]
    | some body => simp [robotsPhase, henv, robotsSitemapLinks_always_empty]
  have ht : m.toNat = 0 := Int.toNat_of_nonpos (le_of_lt hm)
  have hcf : crawlFull env u m = some (sitemapPhase env d (robotsPhase env d).2) := by
    simp only [crawlFull, hb, hd, ht]
    simp only [crawlPage]
    unfold crawlPageGo
    rw [if_pos (by push_cast; omega)]
  refine ⟨hcf, sitemapPhase_visitedUrls env d _, ?_, ?_⟩
  · rw [hsm]
    simp [sitemapPhase]
  · rw [crawl, hcf]; rfl

/-! ## Claim theorems: the depth bound on VisitedSet (C2) -/

lemma foldl_linkStep_visited_bound (env : CrawlEnv) (b d : String) (m : Int)
    (recFn : String → Nat → CrawlState → CrawlState)
    (nu nu2 : String) (links0 : List String) (depth : Nat) (n0 : Nat)
    (hrec : ∀ url' s',
      (∀ c, visitKeyOf b d url' = some c → ∃ n, n ≤ depth + 1 ∧ Reach env b d n c) →
      (∀ w ∈ s'.visitedUrls, ∃ n : Nat, (n : Int) ≤ m ∧ Reach env b d n w) →
      ∀ w ∈ (recFn url' (depth + 1) s').visitedUrls,
        ∃ n : Nat, (n : Int) ≤ m ∧ Reach env b d n w)
    (hsucc : ∀ link ∈ links0, ∀ nl, nl = (normalizeLink link nu2).getD link →
      linkOk d nl = true → nl ∈ pageSuccs env b d nu)
    (hn0 : n0 ≤ depth) (hreach : Reach env b d n0 nu) :
    ∀ ls : List String, (∀ l ∈ ls, l ∈ links0) → ∀ st : CrawlState,
      (∀ w ∈ st.visitedUrls, ∃ n : Nat, (n : Int) ≤ m ∧ Reach env b d n w) →
      ∀ w ∈ (ls.foldl (linkStep d m recFn nu2 depth) st).visitedUrls,
        ∃ n : Nat, (n : Int) ≤ m ∧ Reach env b d n w := by
  intro ls
  induction ls with
  | nil => intro _ st hst w hw; exact hst w hw
  | cons l ls ih =>
    intro hsub st hst w hw
    rw [List.foldl_cons] at hw
    refine ih (fun a ha => hsub a (List.mem_cons.mpr (Or.inr ha))) _ ?_ w hw
    intro w' hw'
    unfold linkStep at hw'
    dsimp only at hw'
    split at hw'
    · rename_i hok
      split at hw'
      · -- recursion into the link
        refine hrec _ _ ?_ ?_ w' hw'
        · intro c hc
          exact ⟨n0 + 1, Nat.succ_le_succ hn0,
            Reach.step n0 nu _ c hreach
              (hsucc l (hsub l (List.mem_cons_self _ _)) _ rfl hok) hc⟩
        · intro w'' hw''
          exact hst w'' hw''
      · exact hst w' hw'
    · exact hst w' hw'

lemma crawlPageGo_visited_bound (env : CrawlEnv) (b d : String) (m : Int)
    (r : Option (String → Bool))
    (recFn : String → Nat → CrawlState → CrawlState)
    (hrec : ∀ url' depth' s',
      (∀ c, visitKeyOf b d url' = some c → ∃ n, n ≤ depth' ∧ Reach env b d n c) →
      (∀ w ∈ s'.visitedUrls, ∃ n : Nat, (n : Int) ≤ m ∧ Reach env b d n w) →
      ∀ w ∈ (recFn url' depth' s').visitedUrls,
        ∃ n : Nat, (n : Int) ≤ m ∧ Reach env b d n w)
    (url : String) (depth : Nat) (s : CrawlState)
    (hpre : ∀ c, visitKeyOf b d url = some c → ∃ n, n ≤ depth ∧ Reach env b d n c)
    (hs : ∀ w ∈ s.visitedUrls, ∃ n : Nat, (n : Int) ≤ m ∧ Reach env b d n w) :
    ∀ w ∈ (crawlPageGo env b d m r recFn url depth s).visitedUrls,
      ∃ n : Nat, (n : Int) ≤ m ∧ Reach env b d n w := by
  intro w hw
  unfold crawlPageGo at hw
  split at hw
  · exact hs w hw
  rename_i hdep
  split at hw
  · exact hs w hw
  rename_i nu hnl
  dsimp only at hw
  split at hw
  · exact hs w hw
  rename_i hval'
  have hval : (isValidUrl nu && isSameDomain d nu) = true := by
    revert hval'
    cases isValidUrl nu && isSameDomain d nu <;> simp
  split at hw
  · exact hs w hw
  rename_i hmem
  split at hw
  · exact hs w hw
  rename_i hrg
  have hkey : visitKeyOf b d url = some nu := by
    simp [visitKeyOf, hnl, hval]
  obtain ⟨n0, hn0, hre⟩ := hpre nu hkey
  have hdm : (depth : Int) ≤ m := not_lt.mp hdep
  have hn0m : ((n0 : Nat) : Int) ≤ m := by
    have : (n0 : Int) ≤ (depth : Int) := by exact_mod_cast hn0
    omega
  split at hw
  · -- render failed: the page is a leaf
    rcases mem_insertStr.mp hw with rfl | hw'
    · exact ⟨n0, hn0m, hre⟩
    · exact hs w hw'
  rename_i f links hrender
  -- rendered: the link loop
  refine foldl_linkStep_visited_bound env b d m recFn nu
      (redirectBase b d nu f) links depth n0
      (fun url' s' hp hi => hrec url' (depth + 1) s' hp hi) ?_ hn0 hre
      links (fun l hl => hl) _ ?_ w hw
  · intro link hlink nl hnl' hok
    simp only [pageSuccs, hrender]
    exact List.mem_filterMap.mpr ⟨link, hlink, by rw [← hnl', if_pos hok]⟩
  · intro w'' hw''
    rw [redirectState_visitedUrls] at hw''
    rcases mem_insertStr.mp hw'' with rfl | hw'''
    · exact ⟨n0, hn0m, hre⟩
    · exact hs w'' hw'''

lemma crawlPage_visited_bound (env : CrawlEnv) (b d : String) (m : Int)
    (r : Option (String → Bool)) :
    ∀ (fuel : Nat) (url : String) (depth : Nat) (s : CrawlState),
      (∀ c, visitKeyOf b d url = some c → ∃ n, n ≤ depth ∧ Reach env b d n c) →
      (∀ w ∈ s.visitedUrls, ∃ n : Nat, (n : Int) ≤ m ∧ Reach env b d n w) →
      ∀ w ∈ (crawlPage env b d m r fuel url depth s).visitedUrls,
        ∃ n : Nat, (n : Int) ≤ m ∧ Reach env b d n w := by
  intro fuel
  induction fuel with
  | zero => intro url depth s _ hs w hw; exact hs w hw
  | succ fuel ih =>
    intro url depth s hpre hs
    simp only [crawlPage]
    exact crawlPageGo_visited_bound env b d m r _ ih url depth s hpre hs

/-- C2: every URL in the final VisitedSet is canonically reachable from
the seed in at most `maxDepth` link steps — so a URL whose minimum
link-distance exceeds `maxDepth` is never dispatched for rendering,
because `crawlPage` returns at once when `depth > maxDepth` and recurses
only when `depth < maxDepth` (it may still appear in the returned list
as a discovered-but-unvisited link). -/
theorem crawl_depth_bound (env : CrawlEnv) (u : String) (m : Int) (b d : String)
    (st : CrawlState) (v : String)
    (hb : normalizeUrl u = some b) (hd : getDomain b = some d)
    (hcf : crawlFull env u m = some st) (hv : v ∈ st.visitedUrls) :
    (∀ (r : Option (String → Bool)) (fuel : Nat) (url : String) (dep : Nat) (s : CrawlState),
      (dep : Int) > m → crawlPage env b d m r fuel url dep s = s) ∧
    ∃ n : Nat, (n : Int) ≤ m ∧ Reach env b d n v := by
  constructor
  · intro r fuel url dep s hgt
    cases fuel with
    | zero => rfl
    | succ fuel =>
      simp only [crawlPage]
      unfold crawlPageGo
      rw [if_pos hgt]
  · simp only [crawlFull, hb, hd, Option.some.injEq] at hcf
    subst hcf
    refine crawlPage_visited_bound env b d m _ (m.toNat + 1) b 0 _ ?_ ?_ v hv
    · intro c hc
      exact ⟨0, Nat.le_refl 0, Reach.seed c hc⟩
    · intro w hw
      rw [sitemapPhase_visitedUrls] at hw
      exact absurd hw (List.not_mem_nil w)

/-- Witness for C2: in a concrete crawl the visited seed is reachable
within the depth bound. -/
theorem crawl_depth_bound_witness :
    ∃ n : Nat, (n : Int) ≤ 2 ∧
      Reach envR "https://ex.com" "ex.com" n "https://ex.com/" :=
  (crawl_depth_bound envR "https://ex.com" 2 "https://ex.com" "ex.com"
    ⟨["https://ex.com/"], ["https://ex.com/"]⟩ "https://ex.com/"
    (by decide) (by decide) (by decide) (by decide)).2

/-- Witness for C9 at `maxDepth = -1`. -/
theorem crawl_negative_depth_witness :
    crawlFull envR "https://ex.com" (-1) =
      some (sitemapPhase envR "ex.com" (robotsPhase envR "ex.com").2) ∧
    (sitemapPhase envR "ex.com" (robotsPhase envR "ex.com").2).visitedUrls = [] ∧
    "https://ex.com" ∉ (sitemapPhase envR "ex.com" (robotsPhase envR "ex.com").2).allLinks ∧
    crawl envR "https://ex.com" (-1) =
      some (sortStrs (sitemapPhase envR "ex.com" (robotsPhase envR "ex.com").2).allLinks) :=
  crawl_negative_depth envR "https://ex.com" "https://ex.com" "ex.com" (-1)
    (by decide) (by decide) (by omega)

/-- Witness for C8 at the seed `https://ex.com`. -/
theorem bare_origin_disagreement_witness :
    normalizeUrl "https://ex.com" =
      some (String.mk (originOf ⟨"https".data, "ex.com".data, ['/'], none, none⟩)) ∧
    normalizeLink (String.mk (originOf ⟨"https".data, "ex.com".data, ['/'], none, none⟩))
        (String.mk (originOf ⟨"https".data, "ex.com".data, ['/'], none, none⟩)) =
      some (String.mk (originOf ⟨"https".data, "ex.com".data, ['/'], none, none⟩ ++ ['/'])) ∧
    String.mk (originOf ⟨"https".data, "ex.com".data, ['/'], none, none⟩) ≠
      String.mk (originOf ⟨"https".data, "ex.com".data, ['/'], none, none⟩ ++ ['/']) :=
  bare_origin_disagreement "https://ex.com" ⟨"https".data, "ex.com".data, ['/'], none, none⟩
    (Or.inr (by decide)) (by decide) (Or.inr (by decide)) (by decide) (by decide) (by decide)
    (by decide)

end LinkFinder
